import Mathlib

/-!
Verification of the Mayer & Nelson (2020) phonotactic language-model notebook
(`notebooks/class.ipynb`): a shallow embedding in Lean 4 of the data pipeline
(`process_data`), the recurrent language model (`Emb_RNNLM`), the training
loop (`train_lm`), the perplexity evaluator (`compute_perplexity`) and the
scorer (`get_probs`), together with theorems settling the specification's
claims about them.

Modelling conventions:
* Python floats are modelled by exact rationals (`Rat`); machine-level
  floating-point rounding is below the abstraction level of this development.
* `random.shuffle` is modelled by quantifying over the already-shuffled input
  list (every theorem about `process_data` holds for every permutation).
* Python's `dict` lookups (`phone2ix[p]`) return `Option`: `none` models the
  `KeyError` raised on a missing key.
* The numeric parts that PyTorch supplies (the pointwise cross-entropy term
  `-log softmax`, `exp`, the `tanh` activation, and the Adam parameter
  update) are kept as explicit function parameters; everything the claims
  are about — index bookkeeping, masking, alignment, aggregation, control
  flow, sharing — is embedded concretely from the notebook source.
-/

namespace MayerNelson

/-! ## Data pipeline: `process_data` (notebook cell 7) -/

/-- `sequence + ['<p>'] * (max_chars - len(sequence))` -/
def padTo (maxChars : Nat) (seq : List String) : List String :=
  seq ++ List.replicate (maxChars - seq.length) "<p>"

/-- `inventory = list(set(phone for word in data for phone in word))` followed by
`inventory = ['<p>'] + [x for x in inventory if x != '<p>']`.  Python's set
iteration order is arbitrary; `dedup` is one deterministic choice of it. -/
def mkInventory (padded : List (List String)) : List String :=
  "<p>" :: (padded.flatten.dedup.filter (fun x => x ≠ "<p>"))

/-- The dictionary `phone2ix = {p: ix for (ix, p) in enumerate(inventory)}`:
a lookup returns the index of the phone in the (duplicate-free) inventory,
and a missing key raises `KeyError`, modelled as `none`. -/
def phone2ix (inventory : List String) (p : String) : Option Nat :=
  if p ∈ inventory then some (List.indexOf p inventory) else none

/-- The dictionary `ix2phone = {ix: p for (ix, p) in enumerate(inventory)}`. -/
def ix2phone (inventory : List String) (i : Nat) : Option String :=
  inventory.get? i

/-- Encoding one sequence through an arbitrary phone-to-index dictionary:
`torch.LongTensor([phone2ix[p] for p in sequence])`; the first missing
phone aborts with `KeyError` (`none`). -/
def encodeWith (p2i : String → Option Nat) (seq : List String) : Option (List Nat) :=
  seq.mapM p2i

/-- Encoding against a concrete inventory. -/
def encodeSeq (inventory : List String) (seq : List String) : Option (List Nat) :=
  encodeWith (phone2ix inventory) seq

/-- Result of `process_data`: the phone inventory plus the two datasets of
encoded sequences (the `phone2ix`/`ix2phone` dictionaries are recovered from
the inventory by the functions above, exactly as the notebook builds them). -/
structure ProcessedData where
  inventory : List String
  training : List (List Nat)
  dev : List (List Nat)
deriving Repr, DecidableEq

/-- The encoded, padded dataset `as_ixs` built inside `process_data`
(before the train/dev split).  `none` models the `ValueError` of `max([])`
on an empty corpus or a `KeyError` during encoding. -/
def asIxsOf (string_training_data : List (List String)) : Option (List (List Nat)) :=
  match (string_training_data.map List.length).max? with
  | none => none
  | some maxChars =>
    let padded := string_training_data.map (padTo maxChars)
    padded.mapM (encodeSeq (mkInventory padded))

/-- `process_data(string_training_data, dev, training_split)` from notebook
cell 7, applied to the already-shuffled data (the leading `random.shuffle`
is modelled by quantifying theorems over permutations of the input).
`none` models the exceptions Python would raise (empty corpus). -/
def process_data (string_training_data : List (List String)) (dev : Bool)
    (training_split : Nat) : Option ProcessedData :=
  match (string_training_data.map List.length).max? with
  | none => none
  | some maxChars =>
    let padded := string_training_data.map (padTo maxChars)
    let inventory := mkInventory padded
    match padded.mapM (encodeSeq inventory) with
    | none => none
    | some asIxs =>
      if dev then
        let split := string_training_data.length * training_split / 100
        some ⟨inventory, asIxs.take split, asIxs.drop split⟩
      else
        some ⟨inventory, asIxs, asIxs.drop (asIxs.length - 10)⟩

/-! ### Basic facts about the inventory -/

theorem mkInventory_nodup (padded : List (List String)) : (mkInventory padded).Nodup := by
  unfold mkInventory
  refine List.Nodup.cons ?_ (List.Nodup.filter _ padded.flatten.nodup_dedup)
  intro h
  have := List.of_mem_filter h
  simp at this

theorem mem_mkInventory_of_mem {padded : List (List String)} {x : String}
    (hx : x ∈ padded.flatten) : x ∈ mkInventory padded := by
  unfold mkInventory
  by_cases hp : x = "<p>"
  · simp [hp]
  · exact List.mem_cons_of_mem _ (List.mem_filter.mpr ⟨List.mem_dedup.mpr hx, by simpa using hp⟩)

theorem pad_mem_mkInventory (padded : List (List String)) : "<p>" ∈ mkInventory padded := by
  unfold mkInventory; exact List.mem_cons_self _ _

theorem phone2ix_pad (padded : List (List String)) :
    phone2ix (mkInventory padded) "<p>" = some 0 := by
  unfold phone2ix
  rw [if_pos (pad_mem_mkInventory padded)]
  unfold mkInventory
  rw [List.indexOf_cons_self]

/-- The two dictionaries are mutually inverse on the inventory. -/
theorem ix2phone_phone2ix {inventory : List String} {s : String}
    (hs : s ∈ inventory) :
    (phone2ix inventory s).bind (ix2phone inventory) = some s := by
  unfold phone2ix ix2phone
  rw [if_pos hs]
  simpa using List.indexOf_get? hs

/-! ### Evaluating `process_data` -/

theorem mapM_eq_some_map {α β : Type} {f : α → Option β} {g : α → β} :
    ∀ {l : List α}, (∀ a ∈ l, f a = some (g a)) → l.mapM f = some (l.map g) := by
  intro l
  induction l with
  | nil => intro _; rfl
  | cons a as ih =>
    intro h
    rw [List.mapM_cons, h a (by simp), ih (fun b hb => h b (by simp [hb]))]
    rfl

theorem encodeSeq_eq_some {inventory : List String} {seq : List String}
    (h : ∀ s ∈ seq, s ∈ inventory) :
    encodeSeq inventory seq = some (seq.map (fun p => List.indexOf p inventory)) := by
  unfold encodeSeq encodeWith
  exact mapM_eq_some_map (fun s hs => by simp [phone2ix, h s hs])

/-- The padded corpus built inside `process_data`. -/
def paddedOf (data : List (List String)) (m : Nat) : List (List String) :=
  data.map (padTo m)

/-- The inventory built inside `process_data`. -/
def inventoryOf (data : List (List String)) (m : Nat) : List String :=
  mkInventory (paddedOf data m)

/-- The encoded dataset `as_ixs` built inside `process_data`. -/
def encodedOf (data : List (List String)) (m : Nat) : List (List Nat) :=
  (paddedOf data m).map (fun w => w.map (fun p => List.indexOf p (inventoryOf data m)))

theorem paddedOf_symbols_mem {data : List (List String)} {m : Nat} {w : List String}
    (hw : w ∈ paddedOf data m) : ∀ s ∈ w, s ∈ inventoryOf data m := by
  intro s hs
  exact mem_mkInventory_of_mem (List.mem_flatten.mpr ⟨w, hw, hs⟩)

theorem process_data_eval {data : List (List String)} {m : Nat}
    (hm : (data.map List.length).max? = some m) (dev : Bool) (t : Nat) :
    process_data data dev t =
      some (if dev then
              ⟨inventoryOf data m, (encodedOf data m).take (data.length * t / 100),
                (encodedOf data m).drop (data.length * t / 100)⟩
            else
              ⟨inventoryOf data m, encodedOf data m,
                (encodedOf data m).drop ((encodedOf data m).length - 10)⟩) := by
  unfold process_data
  rw [hm]
  have henc : (paddedOf data m).mapM (encodeSeq (inventoryOf data m)) =
      some (encodedOf data m) := by
    unfold encodedOf
    exact mapM_eq_some_map
      (fun w hw => encodeSeq_eq_some (paddedOf_symbols_mem hw))
  simp only [paddedOf, inventoryOf] at henc
  dsimp only
  rw [henc]
  cases dev <;> simp [inventoryOf, encodedOf, paddedOf]

theorem max?_le_of_mem {l : List Nat} {m : Nat} (hm : l.max? = some m) :
    ∀ b ∈ l, b ≤ m :=
  fun b hb => (List.max?_eq_some_iff'.mp hm).2 b hb

/-- Shape of each encoded row: the word's phone-by-phone encoding, right-padded
with the padding index `0` up to length `m`. -/
theorem encodedOf_rows (data : List (List String)) (m : Nat) :
    encodedOf data m = data.map (fun w =>
      w.map (fun p => List.indexOf p (inventoryOf data m)) ++
        List.replicate (m - w.length) 0) := by
  unfold encodedOf paddedOf
  rw [List.map_map]
  refine List.map_congr_left (fun w hw => ?_)
  show (padTo m w).map _ = _
  unfold padTo
  rw [List.map_append, List.map_replicate]
  have hp : List.indexOf "<p>" (inventoryOf data m) = 0 := by
    unfold inventoryOf mkInventory
    exact List.indexOf_cons_self _ _
  rw [hp]

theorem encodedOf_row_length {data : List (List String)} {m : Nat}
    (hm : (data.map List.length).max? = some m) :
    ∀ row ∈ encodedOf data m, row.length = m := by
  intro row hrow
  rw [encodedOf_rows data m] at hrow
  obtain ⟨w, hw, rfl⟩ := List.mem_map.mp hrow
  have hle : w.length ≤ m :=
    max?_le_of_mem hm w.length (List.mem_map.mpr ⟨w, hw, rfl⟩)
  simp [Nat.add_sub_cancel' hle]

theorem process_data_max?_isSome {data : List (List String)} {d : Bool} {t : Nat}
    {out : ProcessedData} (h : process_data data d t = some out) :
    ∃ m, (data.map List.length).max? = some m := by
  unfold process_data at h
  cases hmax : (data.map List.length).max? with
  | none => rw [hmax] at h; exact absurd h (by simp)
  | some m => exact ⟨m, rfl⟩

theorem process_data_inventory {data : List (List String)} {d : Bool} {t m : Nat}
    {out : ProcessedData} (hm : (data.map List.length).max? = some m)
    (h : process_data data d t = some out) :
    out.inventory = inventoryOf data m := by
  rw [process_data_eval hm d t] at h
  cases d <;> simpa using (congrArg ProcessedData.inventory (Option.some.inj h)).symm

/-- C5: for every non-empty corpus, the Vocabulary built by `process_data` puts
the padding symbol `<p>` at index 0, and the two dictionaries are mutually
inverse on the vocabulary: `ix2phone (phone2ix s) = s` for every symbol `s`
in the inventory. -/
theorem C5_vocabulary_padding_roundtrip (data : List (List String)) (d : Bool)
    (t : Nat) (out : ProcessedData) (h : process_data data d t = some out) :
    ix2phone out.inventory 0 = some "<p>" ∧
    phone2ix out.inventory "<p>" = some 0 ∧
    ∀ s ∈ out.inventory,
      (phone2ix out.inventory s).bind (ix2phone out.inventory) = some s := by
  obtain ⟨m, hm⟩ := process_data_max?_isSome h
  rw [process_data_inventory hm h]
  refine ⟨?_, phone2ix_pad (paddedOf data m), fun s hs => ix2phone_phone2ix hs⟩
  simp [ix2phone, inventoryOf, mkInventory]

/-- C6: every encoded sequence produced by `process_data` (in either
partition) has length exactly `m`, the length of the longest bracketed
sequence of the input; it is the word's encoding right-padded with the
padding index 0, and no sequence is truncated (`w.length ≤ m` and the
word's full encoding is a prefix of the row). -/
theorem C6_uniform_length_padding (data : List (List String)) (d : Bool)
    (t m : Nat) (out : ProcessedData)
    (hm : (data.map List.length).max? = some m)
    (h : process_data data d t = some out) :
    (∃ w ∈ data, w.length = m) ∧
    ∀ row, row ∈ out.training ∨ row ∈ out.dev →
      row.length = m ∧
      ∃ w ∈ data, w.length ≤ m ∧
        row = w.map (fun p => List.indexOf p out.inventory) ++
          List.replicate (m - w.length) 0 := by
  have hattain : ∃ w ∈ data, w.length = m := by
    have := (List.max?_eq_some_iff'.mp hm).1
    obtain ⟨w, hw, hwl⟩ := List.mem_map.mp this
    exact ⟨w, hw, hwl⟩
  refine ⟨hattain, fun row hrow => ?_⟩
  have hinv := process_data_inventory hm h
  have hsub : row ∈ encodedOf data m := by
    rw [process_data_eval hm d t] at h
    cases d <;> rw [← Option.some.inj h] at hrow <;> simp at hrow
    · rcases hrow with h1 | h2
      · exact h1
      · exact List.drop_subset _ _ h2
    · rcases hrow with h1 | h2
      · exact List.take_subset _ _ h1
      · exact List.drop_subset _ _ h2
  refine ⟨encodedOf_row_length hm row hsub, ?_⟩
  rw [encodedOf_rows data m] at hsub
  obtain ⟨w, hw, hweq⟩ := List.mem_map.mp hsub
  refine ⟨w, hw, max?_le_of_mem hm w.length (List.mem_map.mpr ⟨w, hw, rfl⟩), ?_⟩
  rw [hinv, ← hweq]

/-- C7: `process_data` slices the (already shuffled) encoded dataset at
`⌊n * training_split / 100⌋`: the first part is the training set and the rest
the validation set.  With `dev=False` the validation set is the last 10
encoded examples (all of them when there are fewer than 10). -/
theorem C7_split_policy (data : List (List String)) (t m : Nat)
    (hm : (data.map List.length).max? = some m) :
    (process_data data true t =
      some ⟨inventoryOf data m, (encodedOf data m).take (data.length * t / 100),
            (encodedOf data m).drop (data.length * t / 100)⟩) ∧
    (process_data data false t =
      some ⟨inventoryOf data m, encodedOf data m,
            (encodedOf data m).drop ((encodedOf data m).length - 10)⟩) ∧
    ((encodedOf data m).length ≤ 10 →
      (encodedOf data m).drop ((encodedOf data m).length - 10) = encodedOf data m) ∧
    (10 ≤ (encodedOf data m).length →
      ((encodedOf data m).drop ((encodedOf data m).length - 10)).length = 10) := by
  refine ⟨by simpa using process_data_eval hm true t,
          by simpa using process_data_eval hm false t, ?_, ?_⟩
  · intro hle
    have : (encodedOf data m).length - 10 = 0 := Nat.sub_eq_zero_of_le hle
    rw [this, List.drop_zero]
  · intro hge
    rw [List.length_drop]
    omega

/-- C10: with `dev=False`, `process_data` returns the whole encoded dataset as
the training set and its last 10 rows as the validation set, so every
validation example is also a training example. -/
theorem C10_dev_false_overlap (data : List (List String)) (t : Nat)
    (out : ProcessedData) (h : process_data data false t = some out) :
    out.dev = out.training.drop (out.training.length - 10) ∧
    ∀ row ∈ out.dev, row ∈ out.training := by
  obtain ⟨m, hm⟩ := process_data_max?_isSome h
  rw [process_data_eval hm false t] at h
  rw [← Option.some.inj h]
  exact ⟨rfl, fun row hrow => List.drop_subset _ _ hrow⟩

/-- Witness for C5 at a concrete two-word corpus. -/
theorem C5_vocabulary_padding_roundtrip_witness :
    ix2phone ["<p>", "a", "<s>", "b", "<e>"] 0 = some "<p>" ∧
    phone2ix ["<p>", "a", "<s>", "b", "<e>"] "<p>" = some 0 ∧
    (phone2ix ["<p>", "a", "<s>", "b", "<e>"] "a").bind
      (ix2phone ["<p>", "a", "<s>", "b", "<e>"]) = some "a" := by
  have h := C5_vocabulary_padding_roundtrip [["<s>", "a", "<e>"], ["<s>", "b", "<e>"]]
    true 60 ⟨["<p>", "a", "<s>", "b", "<e>"], [[2, 1, 4]], [[2, 3, 4]]⟩ rfl
  exact ⟨h.1, h.2.1, h.2.2 "a" (by decide)⟩

/-- Witness for C6 at a concrete two-word corpus. -/
theorem C6_uniform_length_padding_witness :
    process_data [["<s>", "a", "<e>"], ["<s>", "b", "<e>"]] true 60 =
      some ⟨["<p>", "a", "<s>", "b", "<e>"], [[2, 1, 4]], [[2, 3, 4]]⟩ ∧
    ([2, 3, 4] : List Nat).length = 3 := by
  refine ⟨rfl, ?_⟩
  have h := C6_uniform_length_padding [["<s>", "a", "<e>"], ["<s>", "b", "<e>"]]
    true 60 3 ⟨["<p>", "a", "<s>", "b", "<e>"], [[2, 1, 4]], [[2, 3, 4]]⟩ rfl rfl
  exact (h.2 [2, 3, 4] (Or.inr (by decide))).1

/-- Witness for C7 at a concrete two-word corpus: split point
`⌊2 * 60 / 100⌋ = 1`, and with `dev=False` the validation set is the whole
(2-element, hence fewer than 10) dataset. -/
theorem C7_split_policy_witness :
    process_data [["<s>", "a", "<e>"], ["<s>", "b", "<e>"]] true 60 =
      some ⟨["<p>", "a", "<s>", "b", "<e>"], [[2, 1, 4]], [[2, 3, 4]]⟩ ∧
    process_data [["<s>", "a", "<e>"], ["<s>", "b", "<e>"]] false 60 =
      some ⟨["<p>", "a", "<s>", "b", "<e>"], [[2, 1, 4], [2, 3, 4]],
            [[2, 1, 4], [2, 3, 4]]⟩ := by
  have h := C7_split_policy [["<s>", "a", "<e>"], ["<s>", "b", "<e>"]] 60 3 rfl
  exact ⟨h.1, h.2.1⟩

/-- Witness for C10 at a concrete two-word corpus with `dev=False`. -/
theorem C10_dev_false_overlap_witness :
    ([[2, 1, 4], [2, 3, 4]] : List (List Nat)) =
      ([[2, 1, 4], [2, 3, 4]] : List (List Nat)).drop
        (([[2, 1, 4], [2, 3, 4]] : List (List Nat)).length - 10) ∧
    ([2, 3, 4] : List Nat) ∈ ([[2, 1, 4], [2, 3, 4]] : List (List Nat)) := by
  have h := C10_dev_false_overlap [["<s>", "a", "<e>"], ["<s>", "b", "<e>"]] 60
    ⟨["<p>", "a", "<s>", "b", "<e>"], [[2, 1, 4], [2, 3, 4]],
     [[2, 1, 4], [2, 3, 4]]⟩ rfl
  exact ⟨h.1, h.2 [2, 3, 4] (by decide)⟩

/-! ## Language model: `Emb_RNNLM` (notebook cell 12)

`forward` embeds the functional content of the class: embedding lookup,
stacked recurrent layers (`nn.RNN`, `batch_first=True`, default `tanh`
nonlinearity kept as an explicit activation parameter `σ`), then the linear
output projection `R2o`.  Weights live in exact rationals. -/

def matVec (w : List (List Rat)) (x : List Rat) : List Rat :=
  w.map (fun row => (List.zipWith (fun a b => a * b) row x).sum)

def vecAdd (x y : List Rat) : List Rat :=
  List.zipWith (fun a b => a + b) x y

/-- One recurrent layer's parameters (PyTorch `weight_ih`, `weight_hh`,
`bias_ih`, `bias_hh`) plus its initial hidden state (zeros by default in
PyTorch; kept general here). -/
structure RNNCell where
  wIH : List (List Rat)
  wHH : List (List Rat)
  bIH : List Rat
  bHH : List Rat
  h0 : List Rat

/-- `new_hidden = σ(W_ih · x_t + b_ih + W_hh · h_prev + b_hh)`. -/
def rnnStep (σ : Rat → Rat) (c : RNNCell) (x h : List Rat) : List Rat :=
  (vecAdd (vecAdd (matVec c.wIH x) c.bIH) (vecAdd (matVec c.wHH h) c.bHH)).map σ

/-- Hidden-state sequence of one layer over the time axis. -/
def rnnOutputs (σ : Rat → Rat) (c : RNNCell) (h : List Rat) :
    List (List Rat) → List (List Rat)
  | [] => []
  | x :: xs =>
    let h1 := rnnStep σ c x h
    h1 :: rnnOutputs σ c h1 xs

/-- `nn.RNN` with `num_layers` stacked layers: each layer consumes the
previous layer's hidden-state sequence. -/
def rnnStack (σ : Rat → Rat) (cells : List RNNCell) (xs : List (List Rat)) :
    List (List Rat) :=
  cells.foldl (fun ys c => rnnOutputs σ c c.h0 ys) xs

/-- The trained parameters of `Emb_RNNLM` as used by `forward`. -/
structure Emb_RNNLM where
  vocab_size : Nat
  embeddings : List (List Rat)
  cells : List RNNCell
  w : List (List Rat)
  b : List Rat

/-- `nn.Embedding` row lookup. -/
def embedIx (emb : List (List Rat)) (i : Nat) : List Rat :=
  emb.getD i []

/-- `nn.Linear`: `W · h + b`. -/
def linear (w : List (List Rat)) (b h : List Rat) : List Rat :=
  vecAdd (matVec w h) b

/-- `Emb_RNNLM.forward` on one sequence of symbol indices:
`outputs = R2o(i2R(embeddings(batch)))`. -/
def forward (σ : Rat → Rat) (net : Emb_RNNLM) (seq : List Nat) : List (List Rat) :=
  (rnnStack σ net.cells (seq.map (embedIx net.embeddings))).map
    (linear net.w net.b)

/-- `Emb_RNNLM.forward` on a whole B×T batch, row by row. -/
def forwardBatch (σ : Rat → Rat) (net : Emb_RNNLM) (batch : List (List Nat)) :
    List (List (List Rat)) :=
  batch.map (forward σ net)

/-! ### Causality of the forward pass (C9) -/

theorem rnnOutputs_take (σ : Rat → Rat) (c : RNNCell) :
    ∀ (xs : List (List Rat)) (h : List Rat) (n : Nat),
      (rnnOutputs σ c h xs).take n = rnnOutputs σ c h (xs.take n) := by
  intro xs
  induction xs with
  | nil => intro h n; simp [rnnOutputs]
  | cons x xs ih =>
    intro h n
    cases n with
    | zero => simp [rnnOutputs]
    | succ n => simp [rnnOutputs, ih]

theorem rnnStack_take (σ : Rat → Rat) (cells : List RNNCell) :
    ∀ (xs : List (List Rat)) (n : Nat),
      (rnnStack σ cells xs).take n = rnnStack σ cells (xs.take n) := by
  induction cells with
  | nil => intro xs n; simp [rnnStack]
  | cons c cs ih =>
    intro xs n
    show (rnnStack σ cs (rnnOutputs σ c c.h0 xs)).take n = _
    rw [ih, rnnOutputs_take]
    rfl

theorem forward_take (σ : Rat → Rat) (net : Emb_RNNLM) (seq : List Nat) (n : Nat) :
    (forward σ net seq).take n = forward σ net (seq.take n) := by
  unfold forward
  rw [← List.map_take, rnnStack_take, List.map_take]

/-- Scores at position `t` of one sequence depend only on symbols at
positions `≤ t`. -/
theorem forward_causal (σ : Rat → Rat) (net : Emb_RNNLM) (xs ys : List Nat)
    (t : Nat) (h : xs.take (t + 1) = ys.take (t + 1)) :
    (forward σ net xs).get? t = (forward σ net ys).get? t := by
  have hx : (forward σ net xs).take (t + 1) = (forward σ net ys).take (t + 1) := by
    rw [forward_take, forward_take, h]
  have hgx : ((forward σ net xs).take (t + 1)).get? t = (forward σ net xs).get? t := by
    simp [List.get?_eq_getElem?, List.getElem?_take, Nat.lt_succ_self]
  have hgy : ((forward σ net ys).take (t + 1)).get? t = (forward σ net ys).get? t := by
    simp [List.get?_eq_getElem?, List.getElem?_take, Nat.lt_succ_self]
  rw [← hgx, ← hgy, hx]

/-- C9: causality, no look-ahead.  For every activation, every model, every
pair of input batches that agree (row by row) on all positions up to and
including `t`, `Emb_RNNLM.forward` produces identical scores at position `t`
in every row. -/
theorem C9_forward_causal_no_lookahead (σ : Rat → Rat) (net : Emb_RNNLM)
    (xss yss : List (List Nat)) (t : Nat)
    (h : List.Forall₂ (fun a b => a.take (t + 1) = b.take (t + 1)) xss yss) :
    List.Forall₂ (fun p q => p.get? t = q.get? t)
      (forwardBatch σ net xss) (forwardBatch σ net yss) := by
  unfold forwardBatch
  rw [List.forall₂_map_left_iff, List.forall₂_map_right_iff]
  exact h.imp (fun a b hab => forward_causal σ net a b t hab)

/-- Witness for C9: two concrete 1×2 batches agreeing at positions 0–1 get
equal scores at position 1 under a concrete nontrivial model. -/
theorem C9_forward_causal_no_lookahead_witness :
    List.Forall₂ (fun p q => p.get? 1 = q.get? 1)
      (forwardBatch (fun x => x * x)
        ⟨2, [[1], [2]], [⟨[[1]], [[1]], [0], [0], [0]⟩], [[1]], [0]⟩
        [[0, 1, 0]])
      (forwardBatch (fun x => x * x)
        ⟨2, [[1], [2]], [⟨[[1]], [[1]], [0], [0], [0]⟩], [[1]], [0]⟩
        [[0, 1, 1]]) := by
  exact C9_forward_causal_no_lookahead (fun x => x * x)
    ⟨2, [[1], [2]], [⟨[[1]], [[1]], [0], [0], [0]⟩], [[1]], [0]⟩
    [[0, 1, 0]] [[0, 1, 1]] 1 (by decide)

/-! ### Construction and weight tying (C4)

`Emb_RNNLM.__init__` allocates `self.embeddings` and `self.R2o` and then, if
`params['tied']` and the dimensions agree, executes
`self.R2o.weight = self.embeddings.weight` — Python reference assignment,
making both attributes the *same object*.  Object identity is modelled by a
heap of weight matrices addressed by references: the constructor allocates
the embedding matrix at reference 0 and the `R2o` weight at reference 1, and
tying redirects the `R2o` reference to the embedding's.  The dimension
mismatch branch only prints a diagnostic (no exception is raised: the
constructor is a total function). -/

structure EmbRNNLMRefs where
  vocab_size : Nat
  d_emb : Nat
  n_layers : Nat
  d_hid : Nat
  embRef : Nat
  r2oRef : Nat
deriving Repr, DecidableEq

structure InitResult where
  model : EmbRNNLMRefs
  heap : List (List (List Rat))
  printed : List String
deriving Repr, DecidableEq

/-- `Emb_RNNLM.__init__(params)` with the two freshly initialised weight
matrices passed explicitly. -/
def emb_rnnlm_init (inv_size d_emb num_layers d_hid : Nat) (tied : Bool)
    (embInit r2oInit : List (List Rat)) : InitResult :=
  let model : EmbRNNLMRefs := ⟨inv_size, d_emb, num_layers, d_hid, 0, 1⟩
  let heap := [embInit, r2oInit]
  if tied then
    if d_emb = d_hid then ⟨{ model with r2oRef := model.embRef }, heap, []⟩
    else ⟨model, heap, ["Dimensions don't support tied embeddings"]⟩
  else ⟨model, heap, []⟩

/-- Reading a weight matrix through a reference. -/
def heapGet (heap : List (List (List Rat))) (r : Nat) : List (List Rat) :=
  heap.getD r []

/-- Mutating the weight matrix behind a reference (e.g. a training update). -/
def heapSet (heap : List (List (List Rat))) (r : Nat) (w : List (List Rat)) :
    List (List (List Rat)) :=
  heap.set r w

/-- C4: with tying requested, if `d_emb = d_hid` the `R2o` weight is the same
owned object as the embedding matrix (one mutation changes both views
identically); if the dimensions differ, construction still succeeds with a
diagnostic printed, and the two weights stay distinct objects: mutating one
never changes the other. -/
theorem C4_weight_tying (inv_size d_emb num_layers d_hid : Nat)
    (embInit r2oInit : List (List Rat)) :
    (d_emb = d_hid →
      (emb_rnnlm_init inv_size d_emb num_layers d_hid true embInit r2oInit).model.r2oRef =
        (emb_rnnlm_init inv_size d_emb num_layers d_hid true embInit r2oInit).model.embRef ∧
      ∀ w : List (List Rat),
        heapGet
          (heapSet (emb_rnnlm_init inv_size d_emb num_layers d_hid true embInit r2oInit).heap
            (emb_rnnlm_init inv_size d_emb num_layers d_hid true embInit r2oInit).model.embRef w)
          (emb_rnnlm_init inv_size d_emb num_layers d_hid true embInit r2oInit).model.r2oRef = w ∧
        heapGet
          (heapSet (emb_rnnlm_init inv_size d_emb num_layers d_hid true embInit r2oInit).heap
            (emb_rnnlm_init inv_size d_emb num_layers d_hid true embInit r2oInit).model.embRef w)
          (emb_rnnlm_init inv_size d_emb num_layers d_hid true embInit r2oInit).model.embRef = w) ∧
    (d_emb ≠ d_hid →
      (emb_rnnlm_init inv_size d_emb num_layers d_hid true embInit r2oInit).printed =
        ["Dimensions don't support tied embeddings"] ∧
      (emb_rnnlm_init inv_size d_emb num_layers d_hid true embInit r2oInit).model.r2oRef ≠
        (emb_rnnlm_init inv_size d_emb num_layers d_hid true embInit r2oInit).model.embRef ∧
      heapGet (emb_rnnlm_init inv_size d_emb num_layers d_hid true embInit r2oInit).heap
        (emb_rnnlm_init inv_size d_emb num_layers d_hid true embInit r2oInit).model.embRef = embInit ∧
      heapGet (emb_rnnlm_init inv_size d_emb num_layers d_hid true embInit r2oInit).heap
        (emb_rnnlm_init inv_size d_emb num_layers d_hid true embInit r2oInit).model.r2oRef = r2oInit ∧
      ∀ w : List (List Rat),
        heapGet
          (heapSet (emb_rnnlm_init inv_size d_emb num_layers d_hid true embInit r2oInit).heap
            (emb_rnnlm_init inv_size d_emb num_layers d_hid true embInit r2oInit).model.embRef w)
          (emb_rnnlm_init inv_size d_emb num_layers d_hid true embInit r2oInit).model.r2oRef = r2oInit ∧
        heapGet
          (heapSet (emb_rnnlm_init inv_size d_emb num_layers d_hid true embInit r2oInit).heap
            (emb_rnnlm_init inv_size d_emb num_layers d_hid true embInit r2oInit).model.r2oRef w)
          (emb_rnnlm_init inv_size d_emb num_layers d_hid true embInit r2oInit).model.embRef = embInit) := by
  constructor
  · intro heq
    have hval : emb_rnnlm_init inv_size d_emb num_layers d_hid true embInit r2oInit =
        ⟨⟨inv_size, d_emb, num_layers, d_hid, 0, 0⟩, [embInit, r2oInit], []⟩ := by
      simp [emb_rnnlm_init, heq]
    rw [hval]
    exact ⟨rfl, fun w => ⟨rfl, rfl⟩⟩
  · intro hne
    have hval : emb_rnnlm_init inv_size d_emb num_layers d_hid true embInit r2oInit =
        ⟨⟨inv_size, d_emb, num_layers, d_hid, 0, 1⟩, [embInit, r2oInit],
         ["Dimensions don't support tied embeddings"]⟩ := by
      simp [emb_rnnlm_init, hne]
    rw [hval]
    exact ⟨rfl, by simp, rfl, rfl, fun w => ⟨rfl, rfl⟩⟩

/-- Witness for C4: the notebook's own configurations — `d_emb = d_hid = 64`
ties the weights; `d_emb = 24, d_hid = 64` prints the diagnostic and leaves
them untied. -/
theorem C4_weight_tying_witness :
    (emb_rnnlm_init 5 64 1 64 true [[1]] [[2]]).model.r2oRef =
      (emb_rnnlm_init 5 64 1 64 true [[1]] [[2]]).model.embRef ∧
    (emb_rnnlm_init 5 24 1 64 true [[1]] [[2]]).printed =
      ["Dimensions don't support tied embeddings"] ∧
    heapGet
      (heapSet (emb_rnnlm_init 5 24 1 64 true [[1]] [[2]]).heap
        (emb_rnnlm_init 5 24 1 64 true [[1]] [[2]]).model.embRef [[7]])
      (emb_rnnlm_init 5 24 1 64 true [[1]] [[2]]).model.r2oRef = [[2]] := by
  have h1 := (C4_weight_tying 5 64 1 64 [[1]] [[2]]).1 rfl
  have h2 := (C4_weight_tying 5 24 1 64 [[1]] [[2]]).2 (by decide)
  exact ⟨h1.1, h2.1, (h2.2.2.2.2 [[7]]).1⟩

/-! ## Masked cross-entropy and shift alignment (cells 17 and 19)

`nn.CrossEntropyLoss(ignore_index=0)`: positions whose target equals the
ignore index 0 are excluded from both the sum and the averaging count.  The
per-position term `-log softmax(scores)[target]` is kept as the parameter
`pl` (it is the only part PyTorch computes in floating point). -/

/-- Summed masked cross-entropy (`reduction='sum'`). -/
def criterionSum (pl : List Rat → Nat → Rat) (preds : List (List Rat))
    (targets : List Nat) : Rat :=
  (((preds.zip targets).filter (fun pt => pt.2 ≠ 0)).map
    (fun pt => pl pt.1 pt.2)).sum

/-- Mean masked cross-entropy (the default reduction used in `train_lm`):
the masked sum divided by the number of non-ignored target positions. -/
def criterionMean (pl : List Rat → Nat → Rat) (preds : List (List Rat))
    (targets : List Nat) : Rat :=
  criterionSum pl preds targets /
    ((((preds.zip targets).filter (fun pt => pt.2 ≠ 0)).length : Nat) : Rat)

/-- `preds = net(batch); preds = preds[:, :-1, :].contiguous().view(-1, V)`:
scores at positions `[0, T-2]` of every row, flattened. -/
def flatPreds (σ : Rat → Rat) (net : Emb_RNNLM) (batch : List (List Nat)) :
    List (List Rat) :=
  ((forwardBatch σ net batch).map (fun row => row.dropLast)).flatten

/-- `targets = batch[:, 1:].contiguous().view(-1)`: symbols at positions
`[1, T-1]` of every row, flattened. -/
def flatTargets (batch : List (List Nat)) : List Nat :=
  (batch.map (fun row => row.drop 1)).flatten

/-- The per-batch loss of `train_lm` (cell 17), mean reduction. -/
def trainBatchLoss (σ : Rat → Rat) (pl : List Rat → Nat → Rat)
    (net : Emb_RNNLM) (batch : List (List Nat)) : Rat :=
  criterionMean pl (flatPreds σ net batch) (flatTargets batch)

/-- The per-batch summed NLL of `compute_perplexity` (cell 19),
`reduction='sum'`. -/
def batchNll (σ : Rat → Rat) (pl : List Rat → Nat → Rat)
    (net : Emb_RNNLM) (batch : List (List Nat)) : Rat :=
  criterionSum pl (flatPreds σ net batch) (flatTargets batch)

/-! ### Length preservation of the forward pass -/

theorem rnnOutputs_length (σ : Rat → Rat) (c : RNNCell) :
    ∀ (xs : List (List Rat)) (h : List Rat),
      (rnnOutputs σ c h xs).length = xs.length := by
  intro xs
  induction xs with
  | nil => intro h; rfl
  | cons x xs ih => intro h; simp [rnnOutputs, ih]

theorem rnnStack_length (σ : Rat → Rat) (cells : List RNNCell) :
    ∀ xs : List (List Rat), (rnnStack σ cells xs).length = xs.length := by
  induction cells with
  | nil => intro xs; rfl
  | cons c cs ih =>
    intro xs
    show (rnnStack σ cs (rnnOutputs σ c c.h0 xs)).length = _
    rw [ih, rnnOutputs_length]

theorem forward_length (σ : Rat → Rat) (net : Emb_RNNLM) (seq : List Nat) :
    (forward σ net seq).length = seq.length := by
  unfold forward
  rw [List.length_map, rnnStack_length, List.length_map]

/-! ### Alignment (C3) -/

theorem zip_flatten {A B : Type} :
    ∀ (ass : List (List A)) (bss : List (List B)),
      List.Forall₂ (fun (a : List A) (b : List B) => a.length = b.length) ass bss →
      ass.flatten.zip bss.flatten = (List.zipWith List.zip ass bss).flatten := by
  intro ass bss h
  induction h with
  | nil => rfl
  | cons hab _ ih =>
    simp only [List.flatten_cons, List.zipWith_cons_cons]
    rw [List.zip_append hab, ih]

/-- The flattened prediction/target pairs of the Trainer and the Evaluator
are exactly, row by row, the scores at positions `[0, T-2]` zipped with the
symbols at positions `[1, T-1]`. -/
theorem flat_pairs_aligned (σ : Rat → Rat) (net : Emb_RNNLM)
    (batch : List (List Nat)) :
    (flatPreds σ net batch).zip (flatTargets batch) =
      (batch.map (fun row =>
        ((forward σ net row).dropLast).zip (row.drop 1))).flatten := by
  unfold flatPreds flatTargets forwardBatch
  rw [List.map_map]
  simp only [Function.comp_def]
  have hlen : List.Forall₂ (fun (a : List (List Rat)) (b : List Nat) =>
      a.length = b.length)
      (batch.map (fun row => (forward σ net row).dropLast))
      (batch.map (fun row => row.drop 1)) := by
    rw [List.forall₂_map_left_iff, List.forall₂_map_right_iff]
    refine List.forall₂_same.mpr (fun row _ => ?_)
    rw [List.length_dropLast, forward_length, List.length_drop]
  rw [zip_flatten _ _ hlen, List.zipWith_map_left, List.zipWith_map_right]
  simp [List.zipWith_same]

/-! ### Masking (`ignore_index=0`) -/

theorem filter_zip_set (v : List Rat) :
    ∀ (preds : List (List Rat)) (targets : List Nat) (i : Nat),
      targets.get? i = some 0 →
      ((preds.set i v).zip targets).filter (fun pt => pt.2 ≠ 0) =
        (preds.zip targets).filter (fun pt => pt.2 ≠ 0) := by
  intro preds
  induction preds with
  | nil => intro targets i _; rfl
  | cons p ps ih =>
    intro targets i h
    cases targets with
    | nil => simp
    | cons t ts =>
      cases i with
      | zero =>
        have ht : t = 0 := by simpa using h
        subst ht
        simp [List.set]
      | succ i =>
        have h1 : ts.get? i = some 0 := by simpa using h
        show ((p :: ps.set i v).zip (t :: ts)).filter _ = _
        simp only [List.zip_cons_cons, List.filter_cons]
        rw [ih ts i h1]

/-- Replacing the prediction at a flattened position whose target is the
padding index 0 changes neither the masked sum nor the masked mean: padded
positions contribute zero loss, and the loss does not depend on the scores
there (zero gradient). -/
theorem criterion_masked_invariant (pl : List Rat → Nat → Rat)
    (preds : List (List Rat)) (targets : List Nat) (i : Nat) (v : List Rat)
    (h : targets.get? i = some 0) :
    criterionSum pl (preds.set i v) targets = criterionSum pl preds targets ∧
    criterionMean pl (preds.set i v) targets = criterionMean pl preds targets := by
  have hf := filter_zip_set v preds targets i h
  unfold criterionMean criterionSum
  rw [hf]
  exact ⟨rfl, rfl⟩

/-- C3: in both the Trainer (cell 17, mean reduction) and the Perplexity
Evaluator (cell 19, sum reduction), the loss pairs the scores at positions
`[0, T-2]` with the actual symbols at positions `[1, T-1]` row by row (the
final position's prediction is discarded), and a flattened position whose
target is the padding index 0 contributes zero loss and zero gradient:
changing the prediction there changes neither loss. -/
theorem C3_shift_alignment_masking (σ : Rat → Rat) (pl : List Rat → Nat → Rat)
    (net : Emb_RNNLM) :
    (∀ batch : List (List Nat),
      trainBatchLoss σ pl net batch =
        criterionMean pl (flatPreds σ net batch) (flatTargets batch) ∧
      batchNll σ pl net batch =
        criterionSum pl (flatPreds σ net batch) (flatTargets batch) ∧
      (flatPreds σ net batch).zip (flatTargets batch) =
        (batch.map (fun row =>
          ((forward σ net row).dropLast).zip (row.drop 1))).flatten) ∧
    (∀ (preds : List (List Rat)) (targets : List Nat) (i : Nat) (v : List Rat),
      targets.get? i = some 0 →
      criterionSum pl (preds.set i v) targets = criterionSum pl preds targets ∧
      criterionMean pl (preds.set i v) targets = criterionMean pl preds targets) := by
  refine ⟨fun batch => ⟨rfl, rfl, flat_pairs_aligned σ net batch⟩, ?_⟩
  exact fun preds targets i v h => criterion_masked_invariant pl preds targets i v h

/-- Witness for C3 at a concrete batch `[[1, 2, 0]]` and a concrete masked
position. -/
theorem C3_shift_alignment_masking_witness :
    (flatPreds (fun x => x) ⟨1, [], [], [], []⟩ [[1, 2, 0]]).zip
        (flatTargets [[1, 2, 0]]) =
      ([[1, 2, 0]].map (fun row =>
        ((forward (fun x => x) ⟨1, [], [], [], []⟩ row).dropLast).zip
          (row.drop 1))).flatten ∧
    criterionSum (fun _ t => (t : Rat)) ([[], []].set 1 [5]) [2, 0] =
      criterionSum (fun _ t => (t : Rat)) [[], []] [2, 0] := by
  have h := C3_shift_alignment_masking (fun x => x) (fun _ t => (t : Rat))
    ⟨1, [], [], [], []⟩
  refine ⟨?_, (h.2 [[], []] [2, 0] 1 [5] (by decide)).1⟩
  exact (C3_shift_alignment_masking (fun x => x) (fun _ t => (t : Rat))
    ⟨1, [], [], [], []⟩).1 [[1, 2, 0]] |>.2.2

/-! ## Perplexity evaluator: `compute_perplexity` (cell 19) -/

/-- `ut = torch.nonzero(batch).size(0)`: the number of nonzero entries of the
whole B×T batch — note this includes position 0 of every row. -/
def unmaskedTokens (batch : List (List Nat)) : Nat :=
  (batch.flatten.filter (fun i => i ≠ 0)).length

/-- `batches = [(start, start + bsz) for start in range(0, num_examples, bsz)]`
followed by slicing `dataset[start:end]`: the dataset cut into consecutive
chunks of size `bsz`.  The fuel argument bounds the recursion; it is set to
`dataset.length`, which suffices for every `bsz ≥ 1`. -/
def chunkGo {α : Type} (bsz : Nat) : Nat → List α → List (List α)
  | 0, _ => []
  | _, [] => []
  | fuel + 1, l => l.take bsz :: chunkGo bsz fuel (l.drop bsz)

def batchesOf {α : Type} (bsz : Nat) (dataset : List α) : List (List α) :=
  chunkGo bsz dataset.length dataset

/-- `compute_perplexity(dataset, net, bsz)`: accumulate the summed masked NLL
and the nonzero-entry count over the batches, return `exp(nll / count)`
(`exp` kept as the parameter `expF`). -/
def compute_perplexity (expF : Rat → Rat) (σ : Rat → Rat)
    (pl : List Rat → Nat → Rat) (net : Emb_RNNLM)
    (dataset : List (List Nat)) (bsz : Nat) : Rat :=
  expF (((batchesOf bsz dataset).map (batchNll σ pl net)).sum /
        ((batchesOf bsz dataset).map (fun b => (unmaskedTokens b : Rat))).sum)

/-- The formula C1 claims, written from the spec's words: `exp(total_nll /
total_count)` where `total_nll` is the single-pass summed NLL over the
non-padding *target* positions and `total_count` counts exactly those target
positions — positions `1..T-1` whose symbol index is not 0. -/
def perplexity_claimC1 (expF : Rat → Rat) (σ : Rat → Rat)
    (pl : List Rat → Nat → Rat) (net : Emb_RNNLM)
    (dataset : List (List Nat)) : Rat :=
  expF (criterionSum pl (flatPreds σ net dataset) (flatTargets dataset) /
        (((flatTargets dataset).filter (fun i => i ≠ 0)).length : Rat))

/-! ### Batching is equivalent to a single pass -/

theorem chunkGo_flatten {α : Type} {bsz : Nat} (hbsz : 0 < bsz) :
    ∀ (fuel : Nat) (l : List α), l.length ≤ fuel →
      (chunkGo bsz fuel l).flatten = l := by
  intro fuel
  induction fuel with
  | zero =>
    intro l hl
    rw [Nat.le_zero, List.length_eq_zero] at hl
    subst hl
    rfl
  | succ fuel ih =>
    intro l hl
    cases l with
    | nil => rfl
    | cons a as =>
      show ((a :: as).take bsz :: chunkGo bsz fuel ((a :: as).drop bsz)).flatten = _
      rw [List.flatten_cons, ih _ (by rw [List.length_drop]; omega),
        List.take_append_drop]

theorem batchesOf_flatten {α : Type} {bsz : Nat} (hbsz : 0 < bsz)
    (dataset : List α) : (batchesOf bsz dataset).flatten = dataset :=
  chunkGo_flatten hbsz dataset.length dataset le_rfl

theorem flatPreds_append (σ : Rat → Rat) (net : Emb_RNNLM)
    (a b : List (List Nat)) :
    flatPreds σ net (a ++ b) = flatPreds σ net a ++ flatPreds σ net b := by
  simp [flatPreds, forwardBatch, List.map_append, List.flatten_append]

theorem flatTargets_append (a b : List (List Nat)) :
    flatTargets (a ++ b) = flatTargets a ++ flatTargets b := by
  simp [flatTargets, List.map_append, List.flatten_append]

theorem flatPreds_length (σ : Rat → Rat) (net : Emb_RNNLM)
    (batch : List (List Nat)) :
    (flatPreds σ net batch).length = (flatTargets batch).length := by
  unfold flatPreds flatTargets forwardBatch
  rw [List.length_flatten, List.length_flatten, List.map_map, List.map_map,
    List.map_map]
  congr 1
  refine List.map_congr_left (fun row _ => ?_)
  simp [List.length_dropLast, forward_length, List.length_drop]

theorem criterionSum_append (pl : List Rat → Nat → Rat)
    {pa : List (List Rat)} {ta : List Nat} (pb : List (List Rat))
    (tb : List Nat) (hlen : pa.length = ta.length) :
    criterionSum pl (pa ++ pb) (ta ++ tb) =
      criterionSum pl pa ta + criterionSum pl pb tb := by
  unfold criterionSum
  rw [List.zip_append hlen, List.filter_append, List.map_append,
    List.sum_append]

theorem batchNll_append (σ : Rat → Rat) (pl : List Rat → Nat → Rat)
    (net : Emb_RNNLM) (a b : List (List Nat)) :
    batchNll σ pl net (a ++ b) = batchNll σ pl net a + batchNll σ pl net b := by
  unfold batchNll
  rw [flatPreds_append, flatTargets_append,
    criterionSum_append pl _ _ (flatPreds_length σ net a)]

theorem batchNll_sum (σ : Rat → Rat) (pl : List Rat → Nat → Rat)
    (net : Emb_RNNLM) :
    ∀ bs : List (List (List Nat)),
      (bs.map (batchNll σ pl net)).sum = batchNll σ pl net bs.flatten := by
  intro bs
  induction bs with
  | nil => rfl
  | cons b bs ih =>
    rw [List.map_cons, List.sum_cons, List.flatten_cons, batchNll_append, ih]

theorem unmaskedTokens_append (a b : List (List Nat)) :
    unmaskedTokens (a ++ b) = unmaskedTokens a + unmaskedTokens b := by
  simp [unmaskedTokens, List.flatten_append, List.filter_append]

theorem unmaskedTokens_sum :
    ∀ bs : List (List (List Nat)),
      (bs.map (fun b => (unmaskedTokens b : Rat))).sum =
        (unmaskedTokens bs.flatten : Rat) := by
  intro bs
  induction bs with
  | nil => simp [unmaskedTokens]
  | cons b bs ih =>
    rw [List.map_cons, List.sum_cons, List.flatten_cons, unmaskedTokens_append,
      ih]
    push_cast
    ring

/-- C1 amended: for every batch size ≥ 1 (the notebook default is 64),
`compute_perplexity` equals the single-pass formula — batching is indeed
equivalent to one pass over the dataset — but the denominator is
`unmaskedTokens dataset`, the number of nonzero entries over ALL positions
`0..T-1` (the initial `<s>` of every row included), not the number of
non-padding target positions `1..T-1` that C1 states. -/
theorem C1_amended_all_positions_count (expF : Rat → Rat) (σ : Rat → Rat)
    (pl : List Rat → Nat → Rat) (net : Emb_RNNLM)
    (dataset : List (List Nat)) (bsz : Nat) (hbsz : 0 < bsz) :
    compute_perplexity expF σ pl net dataset bsz =
      expF (criterionSum pl (flatPreds σ net dataset) (flatTargets dataset) /
            (unmaskedTokens dataset : Rat)) := by
  unfold compute_perplexity
  rw [batchNll_sum, unmaskedTokens_sum, batchesOf_flatten hbsz]
  rfl

/-- Witness for the amended C1 at a concrete dataset and batch size. -/
theorem C1_amended_all_positions_count_witness :
    compute_perplexity (fun x => x) (fun x => x) (fun _ _ => 1)
      ⟨1, [], [], [], []⟩ [[1, 2, 0]] 64 =
      criterionSum (fun _ _ => 1)
        (flatPreds (fun x => x) ⟨1, [], [], [], []⟩ [[1, 2, 0]])
        (flatTargets [[1, 2, 0]]) / (unmaskedTokens [[1, 2, 0]] : Rat) :=
  C1_amended_all_positions_count (fun x => x) (fun x => x) (fun _ _ => 1)
    ⟨1, [], [], [], []⟩ [[1, 2, 0]] 64 (by decide)

/-- Counterexample to C1 as stated: on the dataset `[[1, 2, 0]]` the code
divides by `unmaskedTokens = 2` (the nonzero entries at positions 0 and 1)
while the claim's count of non-padding target positions is 1 (only position
1 has a nonzero target), so with the identity in place of `exp` and a
constant per-position loss the two values are 1/2 and 1. -/
theorem C1_counterexample :
    compute_perplexity (fun x => x) (fun x => x) (fun _ _ => 1)
      ⟨1, [], [], [], []⟩ [[1, 2, 0]] 64 ≠
    perplexity_claimC1 (fun x => x) (fun x => x) (fun _ _ => 1)
      ⟨1, [], [], [], []⟩ [[1, 2, 0]] := by
  norm_num [compute_perplexity, perplexity_claimC1, batchesOf, chunkGo,
    batchNll, criterionSum, flatPreds, flatTargets, forwardBatch, forward,
    rnnStack, rnnOutputs, embedIx, linear, matVec, vecAdd, unmaskedTokens]

/-! ## Training loop: `train_lm` (cell 17)

The per-epoch numeric work of cell 17 — shuffling the batch order, the
forward/backward passes and the Adam updates over all the batches of an
epoch — is the parameter `step : N → N` on the parameter state, and `evalP`
abstracts `compute_perplexity(dev, net)` after the epoch.  The control flow
is embedded literally: `prev_perplexity = 1e10` before the loop, and after
each epoch `break` when `dev_perplexity - prev_perplexity > 0.01`.  The
source never reassigns `prev_perplexity` inside the loop, so `prev` stays
the sentinel forever.  The result pairs the final parameters with the list
of per-epoch dev perplexities, one entry per epoch actually run. -/

def train_lm_go {N : Type} (step : N → N) (evalP : N → Rat) (prev : Rat) :
    Nat → N → N × List Rat
  | 0, net => (net, [])
  | epochs + 1, net =>
    let net1 := step net
    let p := evalP net1
    if p - prev > 1 / 100 then (net1, [p])
    else
      let r := train_lm_go step evalP prev epochs net1
      (r.1, p :: r.2)

/-- `train_lm(dataset, dev, params, net)`: the epoch loop entered with
`prev_perplexity = 1e10`. -/
def train_lm {N : Type} (step : N → N) (evalP : N → Rat) (epochs : Nat)
    (net : N) : N × List Rat :=
  train_lm_go step evalP 10000000000 epochs net

/-- The number of epochs the loop actually runs: the first epoch `k + 1`
whose dev perplexity `f (k + 1)` exceeds `prev` by more than the tolerance
0.01 is the last epoch run; when no epoch exceeds it, all `epochs` run. -/
def stopLen (f : Nat → Rat) (prev : Rat) (epochs : Nat) : Nat :=
  match (List.range epochs).find? (fun k => decide (f (k + 1) - prev > 1 / 100)) with
  | some k => k + 1
  | none => epochs

theorem stopLen_succ (f : Nat → Rat) (prev : Rat) (epochs : Nat) :
    stopLen f prev (epochs + 1) =
      if f 1 - prev > 1 / 100 then 1
      else stopLen (fun k => f (k + 1)) prev epochs + 1 := by
  unfold stopLen
  rw [List.range_succ_eq_map]
  by_cases hgt : f 1 - prev > 1 / 100
  · rw [if_pos hgt, List.find?_cons_of_pos _ (by simpa using hgt)]
  · rw [if_neg hgt, List.find?_cons_of_neg _ (by simpa using hgt), List.find?_map]
    have hcomp : ((fun k => decide (f (k + 1) - prev > 1 / 100)) ∘ Nat.succ) =
        fun k => decide (f (k + 1 + 1) - prev > 1 / 100) := by
      funext k; rfl
    rw [hcomp]
    rcases hf : List.find?
        (fun k => decide (f (k + 1 + 1) - prev > 1 / 100))
        (List.range epochs) with _ | k
    · rfl
    · rfl

/-- Closed form of the epoch loop for every constant `prev`: the loop runs
`stopLen` epochs, returns the parameters after exactly that many `step`s,
and records the dev perplexity of every epoch it ran. -/
theorem train_lm_go_eval {N : Type} (step : N → N) (evalP : N → Rat)
    (prev : Rat) :
    ∀ (epochs : Nat) (net : N),
      train_lm_go step evalP prev epochs net =
        (step^[stopLen (fun k => evalP (step^[k] net)) prev epochs] net,
         (List.range (stopLen (fun k => evalP (step^[k] net)) prev epochs)).map
           (fun k => evalP (step^[k + 1] net))) := by
  intro epochs
  induction epochs with
  | zero => intro net; simp [train_lm_go, stopLen]
  | succ epochs ih =>
    intro net
    by_cases hp : evalP (step net) - prev > 1 / 100
    · have hcond : (fun k => evalP (step^[k] net)) 1 - prev > 1 / 100 := by
        show evalP (step^[1] net) - prev > 1 / 100
        rw [Function.iterate_one]; exact hp
      have hstop : stopLen (fun k => evalP (step^[k] net)) prev (epochs + 1) = 1 := by
        rw [stopLen_succ, if_pos hcond]
      rw [hstop]
      show (if evalP (step net) - prev > 1 / 100 then (step net, [evalP (step net)])
            else
              ((train_lm_go step evalP prev epochs (step net)).1,
               evalP (step net) :: (train_lm_go step evalP prev epochs (step net)).2)) = _
      rw [if_pos hp]
      simp [Function.iterate_one, List.range_succ]
    · have hcond : ¬ ((fun k => evalP (step^[k] net)) 1 - prev > 1 / 100) := by
        show ¬ (evalP (step^[1] net) - prev > 1 / 100)
        rw [Function.iterate_one]; exact hp
      have hstop : stopLen (fun k => evalP (step^[k] net)) prev (epochs + 1) =
          stopLen (fun k => evalP (step^[k + 1] net)) prev epochs + 1 := by
        rw [stopLen_succ, if_neg hcond]
      rw [hstop]
      show (if evalP (step net) - prev > 1 / 100 then (step net, [evalP (step net)])
            else
              ((train_lm_go step evalP prev epochs (step net)).1,
               evalP (step net) :: (train_lm_go step evalP prev epochs (step net)).2)) = _
      rw [if_neg hp, ih (step net)]
      have hfun : (fun k => evalP (step^[k] (step net))) =
          (fun k => evalP (step^[k + 1] net)) := by
        funext k
        rw [Function.iterate_succ_apply]
      rw [hfun]
      refine Prod.ext ?_ ?_
      · show step^[stopLen (fun k => evalP (step^[k + 1] net)) prev epochs] (step net) =
          step^[stopLen (fun k => evalP (step^[k + 1] net)) prev epochs + 1] net
        rw [Function.iterate_succ_apply]
      · show evalP (step net) ::
            (List.range (stopLen (fun k => evalP (step^[k + 1] net)) prev epochs)).map
              (fun k => evalP (step^[k + 1] (step net))) =
          (List.range (stopLen (fun k => evalP (step^[k + 1] net)) prev epochs + 1)).map
            (fun k => evalP (step^[k + 1] net))
        rw [List.range_succ_eq_map, List.map_cons, List.map_map]
        have hhead : evalP (step^[0 + 1] net) = evalP (step net) := by
          show evalP (step^[1] net) = evalP (step net)
          rw [Function.iterate_one]
        have htail : ((fun k => evalP (step^[k + 1] net)) ∘ Nat.succ) =
            (fun k => evalP (step^[k + 1] (step net))) := by
          funext k
          show evalP (step^[k + 1 + 1] net) = evalP (step^[k + 1] (step net))
          rw [Function.iterate_succ_apply]
        rw [hhead, htail]

/-- C2 amended: the loop stops immediately after an epoch iff that epoch's
validation perplexity exceeds the *initial sentinel* `1e10` by more than the
tolerance 0.01 — `prev_perplexity` is never updated, so the previous epoch's
perplexity is never consulted and stalling never stops training.  On a stop
the parameters kept are the current ones: exactly one `step` per epoch run,
with no rollback.  `stopLen` is the index of the first epoch exceeding the
sentinel (or `epochs` when none does). -/
theorem C2_amended_sentinel_stopping {N : Type} (step : N → N)
    (evalP : N → Rat) (epochs : Nat) (net : N) :
    train_lm step evalP epochs net =
      (step^[stopLen (fun k => evalP (step^[k] net)) 10000000000 epochs] net,
       (List.range (stopLen (fun k => evalP (step^[k] net)) 10000000000 epochs)).map
         (fun k => evalP (step^[k + 1] net))) :=
  train_lm_go_eval step evalP 10000000000 epochs net

/-- Counterexample to C2 as stated: a 3-epoch run whose dev perplexities are
1, 100, 100.  Epoch 2's perplexity exceeds epoch 1's by 99 > 0.01, so the
claimed rule demands an immediate stop after epoch 2 (a 2-entry trace); the
code runs all 3 epochs because `prev_perplexity` is still the sentinel
`1e10`. -/
theorem C2_counterexample :
    (train_lm Nat.succ (fun n => if n ≤ 1 then 1 else 100) 3 0).2 =
      [1, 100, 100] ∧
    ¬ ((train_lm Nat.succ (fun n => if n ≤ 1 then 1 else 100) 3 0).2.length = 2) ∧
    (100 : Rat) - 1 > 1 / 100 := by
  refine ⟨?_, ?_, by norm_num⟩ <;> norm_num [train_lm, train_lm_go]

/-! ## Scorer: `get_probs` (cell 23)

`get_probs(input_file, model, phone2ix, out_filename)` first loops over the
whole input file, bracketing each line with `<s>`/`<e>` and encoding it via
`phone2ix[p]` (building `data_tens` and the surface strings with spaces
removed), and only then loops again writing one `surface TAB perplexity`
record per word, scoring each word as a batch of one (`word.unsqueeze(0)`)
through `compute_perplexity` with the default `bsz = 64`.  A `KeyError` in
the first loop therefore aborts before anything is written: modelled as
`none` with no output records. -/

def get_probs (expF σ : Rat → Rat) (pl : List Rat → Nat → Rat)
    (net : Emb_RNNLM) (p2i : String → Option Nat)
    (lines : List (List String)) : Option (List (String × Rat)) :=
  match lines.mapM (fun l => encodeWith p2i ("<s>" :: (l ++ ["<e>"]))) with
  | none => none
  | some tens =>
    some ((lines.map (fun l => String.join l)).zip
          (tens.map (fun t => compute_perplexity expF σ pl net [t] 64)))

theorem mapM_eq_none {α β : Type} {f : α → Option β} :
    ∀ {l : List α}, (∃ a ∈ l, f a = none) → l.mapM f = none := by
  intro l
  induction l with
  | nil => rintro ⟨a, ha, _⟩; cases ha
  | cons a as ih =>
    rintro ⟨b, hb, hfb⟩
    rw [List.mapM_cons]
    rcases List.mem_cons.mp hb with rfl | hbs
    · rw [hfb]; rfl
    · cases hfa : f a with
      | none => rfl
      | some v =>
        rw [ih ⟨b, hbs, hfb⟩]
        rfl

/-- C8: encoding a sequence containing a symbol absent from the vocabulary
signals the error at the encoding boundary.  In `process_data` the encoding
(`encodeSeq`) aborts with the `KeyError` (`none`); in `get_probs` the
encoding loop runs before any scoring or output, so the whole call aborts
with no output records — no crash elsewhere and no silent default index. -/
theorem C8_unknown_symbol_fails_fast :
    (∀ (inventory : List String) (seq : List String),
      (∃ s ∈ seq, s ∉ inventory) → encodeSeq inventory seq = none) ∧
    (∀ (expF σ : Rat → Rat) (pl : List Rat → Nat → Rat) (net : Emb_RNNLM)
        (p2i : String → Option Nat) (lines : List (List String)),
      (∃ l ∈ lines, ∃ s ∈ ("<s>" :: (l ++ ["<e>"])), p2i s = none) →
      get_probs expF σ pl net p2i lines = none) := by
  constructor
  · rintro inventory seq ⟨s, hs, hsn⟩
    exact mapM_eq_none ⟨s, hs, by simp [phone2ix, hsn]⟩
  · rintro expF σ pl net p2i lines ⟨l, hl, s, hs, hsn⟩
    unfold get_probs
    have hinner : encodeWith p2i ("<s>" :: (l ++ ["<e>"])) = none :=
      mapM_eq_none ⟨s, hs, hsn⟩
    have houter :
        lines.mapM (fun l => encodeWith p2i ("<s>" :: (l ++ ["<e>"]))) = none :=
      mapM_eq_none ⟨l, hl, hinner⟩
    rw [houter]

/-- Witness for C8: `"b"` is missing from the vocabulary `["<p>", "a"]`, and
a test line whose bracketing start marker `<s>` is missing from the
dictionary aborts `get_probs` with no output. -/
theorem C8_unknown_symbol_fails_fast_witness :
    encodeSeq ["<p>", "a"] ["b"] = none ∧
    get_probs (fun x => x) (fun x => x) (fun _ _ => 1) ⟨1, [], [], [], []⟩
      (phone2ix ["<p>", "a"]) [["a"]] = none := by
  refine ⟨C8_unknown_symbol_fails_fast.1 ["<p>", "a"] ["b"]
    ⟨"b", by decide, by decide⟩, ?_⟩
  exact C8_unknown_symbol_fails_fast.2 (fun x => x) (fun x => x) (fun _ _ => 1)
    ⟨1, [], [], [], []⟩ (phone2ix ["<p>", "a"]) [["a"]]
    ⟨["a"], by decide, "<s>", by decide, by decide⟩
